import Mathlib

/-!
Verification development for the `workspace` package of the kvist repository:
a shallow embedding of the repository scanner (`scanner.go`) and the cache
persistence layer (`workspace.go`), together with theorems settling the
specification claims about them.

Modelling conventions:
* Wall-clock instants and durations (`time.Time`, `time.Duration`) are integers
  (nanoseconds); the zero value of `time.Time` is modelled as `0`, matching
  `IsZero`.
* The in-memory repo cache `map[string]RepoInfo` is a function
  `String → Option RepoInfo`; for persistence, where key enumeration matters,
  it is an association list.
* External effects are oracles passed as parameters: the git accessor is a
  `GitOracle` (a `none` result models a failed call), directory discovery is an
  `Except`-valued function, and the filesystem seen by the quick scanner is an
  explicit two-level directory listing.
* Context cancellation is a boolean parameter checked exactly where the code
  checks `ctx.Done()`; goroutine scheduling is modelled by sequential
  evaluation, which is faithful here because every scan worker only reads the
  cache and all cache mutation happens after the workers are collected.
-/

namespace Kvist

/-- Mirror of `workspace.RepoInfo` (workspace.go): metadata cached per
discovered repository. -/
structure RepoInfo where
  path : String
  name : String
  branch : String
  ahead : Int
  behind : Int
  hasUpstream : Bool
  lastCommitTime : Int
  lastScanned : Int
  workspaceName : String
deriving Repr, DecidableEq

/-- Mirror of `workspace.Workspace` (workspace.go): a configured root
directory. -/
structure Workspace where
  name : String
  path : String
deriving Repr, DecidableEq

/-- The in-memory repo cache `map[string]RepoInfo` (field `Repos` of
`workspace.RepoCache`), as a partial function from path to record. -/
def Cache : Type := String → Option RepoInfo

/-- The external git accessor (package `git`), as an oracle: `none` models a
failed call. `currentBranch` is `git.GetCurrentBranch`, `aheadBehind` is
`git.GetAheadBehind` (`none` = `ok == false`), `commits` is
`git.GetCommits(path, 1)` returning the commit times (`none` = error). -/
structure GitOracle where
  currentBranch : String → Option String
  aheadBehind : String → Option (Int × Int)
  commits : String → Option (List Int)

/-- One external VCS query issued by the scanner. -/
inductive GitQuery where
  | branchOf : String → GitQuery
  | aheadBehindOf : String → GitQuery
  | commitsOf : String → GitQuery
deriving Repr, DecidableEq

/-- `5 * time.Minute` in nanoseconds, the staleness threshold of
`Scanner.scanRepo`. -/
def stalenessThreshold : Int := 5 * 60 * 1000000000

/-- Character-list prefix test. Under UTF-8, byte-wise prefix (Go's
`strings.HasPrefix`) coincides with character-wise prefix. -/
def isCharPre : List Char → List Char → Bool
  | [], _ => true
  | _ :: _, [] => false
  | a :: as, b :: bs => if a = b then isCharPre as bs else false

/-- Go's `strings.HasPrefix s pre`. -/
def strHasPre (s pre : String) : Bool := isCharPre pre.data s.data

/-- Lexicographic order on character lists by code point. Under UTF-8 this
coincides with Go's byte-wise `<` on strings. -/
def charListLT : List Char → List Char → Bool
  | [], [] => false
  | [], _ :: _ => true
  | _ :: _, [] => false
  | a :: as, b :: bs =>
      if a.toNat < b.toNat then true
      else if b.toNat < a.toNat then false
      else charListLT as bs

/-- Go's `<` on strings. -/
def strLT (a b : String) : Bool := charListLT a.data b.data

/-- Split a character list at every slash. -/
def splitSlash : List Char → List (List Char)
  | [] => [[]]
  | c :: rest =>
      let r := splitSlash rest
      if c = '/' then [] :: r
      else
        match r with
        | h :: t => (c :: h) :: t
        | [] => [[c]]

/-- `filepath.Base` for the clean paths the scanner builds: last nonempty
path component; `"."` for the empty string, `"/"` when the path is all
slashes. -/
def baseName (p : String) : String :=
  if p = "" then "."
  else
    match ((splitSlash p.data).filter (fun s => s ≠ [])).getLast? with
    | some s => String.mk s
    | none => "/"

/-- The three external queries `Scanner.scanRepo` issues for one repository
path. -/
def allQueries (p : String) : List GitQuery :=
  [GitQuery.branchOf p, GitQuery.aheadBehindOf p, GitQuery.commitsOf p]

/-- The enrichment steps shared verbatim by `Scanner.scanRepo` (lines 251-266)
and `Scanner.enrichRepoMetadata` (lines 478-493): fill branch, ahead/behind
and last commit time from whichever git queries succeed, leaving the field
untouched on failure. -/
def enrichFields (g : GitOracle) (r0 : RepoInfo) : RepoInfo :=
  let r1 := match g.currentBranch r0.path with
    | some b => { r0 with branch := b }
    | none => r0
  let r2 := match g.aheadBehind r0.path with
    | some ab => { r1 with ahead := ab.1, behind := ab.2, hasUpstream := true }
    | none => r1
  match g.commits r0.path with
  | some (t :: _) => { r2 with lastCommitTime := t }
  | _ => r2

/-- The record `Scanner.scanRepo` produces when the cache cannot be used:
the base record (path, base name, workspace, scan time, zero-valued git
fields) enriched by the three external queries. -/
def freshScanRecord (g : GitOracle) (now : Int) (repoPath wsName : String) : RepoInfo :=
  enrichFields g
    { path := repoPath, name := baseName repoPath, branch := "", ahead := 0, behind := 0,
      hasUpstream := false, lastCommitTime := 0, lastScanned := now, workspaceName := wsName }

/-- `Scanner.scanRepo` (scanner.go lines 227-269). Returns the scan result
(`Except.error ()` models returning `ctx.Err()`) together with the list of
external VCS queries the call issued. -/
def scanRepo (g : GitOracle) (now : Int) (cache : Cache) (cancelled : Bool)
    (repoPath wsName : String) : Except Unit RepoInfo × List GitQuery :=
  if cancelled then (Except.error (), [])
  else
    match cache repoPath with
    | some cached =>
        if now - cached.lastScanned < stalenessThreshold then
          (Except.ok cached, [])
        else
          (Except.ok (freshScanRecord g now repoPath wsName), allQueries repoPath)
    | none => (Except.ok (freshScanRecord g now repoPath wsName), allQueries repoPath)

/-- `Scanner.scanRepos` (scanner.go lines 178-224): scan every discovered
path, silently dropping the ones whose scan returned an error. All workers
read the same pre-scan cache, so the parallel loop is modelled by a
sequential `filterMap`. -/
def scanRepos (g : GitOracle) (now : Int) (cache : Cache) (cancelled : Bool)
    (paths : List String) (wsName : String) : List RepoInfo :=
  paths.filterMap fun p => ((scanRepo g now cache cancelled p wsName).1).toOption

/-- `s.cache.Repos[k] = r`. -/
def insertAt (c : Cache) (k : String) (r : RepoInfo) : Cache :=
  fun q => if q = k then some r else c q

/-- `s.cache.Repos[repo.Path] = repo`, the upsert used by the scan merge
loops. -/
def upsert (c : Cache) (r : RepoInfo) : Cache :=
  insertAt c r.path r

/-- Upsert a whole list of scanned records in order (the
`for _, repo := range ...` merge loops). -/
def upsertAll (c : Cache) (rs : List RepoInfo) : Cache :=
  rs.foldl upsert c

/-- The deletion loop of the scan merge: drop every cache entry whose
`workspaceName` satisfies the given test. -/
def removeWorkspaceEntries (c : Cache) (isTarget : String → Bool) : Cache :=
  fun q =>
    match c q with
    | some r => if isTarget r.workspaceName then none else some r
    | none => none

/-- `Scanner.enrichRepoMetadata` (scanner.go lines 471-499): the detached
background enrichment spawned by `DiscoverReposIncremental`. Fills the git
fields and then writes the record into the cache under its path, unless the
context was already cancelled at entry. Returns the updated cache. -/
def enrichRepoMetadata (g : GitOracle) (cancelled : Bool) (repo : RepoInfo)
    (cache : Cache) : Cache :=
  if cancelled then cache
  else
    let r := enrichFields g repo
    insertAt cache r.path r

/-- The workspace-name lookup at the top of `Scanner.UpdateRepo` (scanner.go
lines 282-288): the name of the first configured workspace whose `Path` is a
plain string prefix of the repo path, or `""` when none matches. -/
def findWorkspaceName (config : List Workspace) (repoPath : String) : String :=
  match config.find? (fun ws => strHasPre repoPath ws.path) with
  | some ws => ws.name
  | none => ""

/-- Result of `Scanner.UpdateRepo`: whether it returned without error, the
cache it left behind, and the external queries it issued. (The final
`cache.Save()` is modelled as succeeding; its failure only changes the
returned error, not the cache.) -/
structure UpdateOutcome where
  ok : Bool
  cache : Cache
  queries : List GitQuery

/-- `Scanner.UpdateRepo` (scanner.go lines 280-300): compute the workspace
name by first prefix match, run `scanRepo`, and on success store the result
under the key `repoPath`. -/
def updateRepo (g : GitOracle) (now : Int) (config : List Workspace)
    (cache : Cache) (cancelled : Bool) (repoPath : String) : UpdateOutcome :=
  let wsName := findWorkspaceName config repoPath
  match scanRepo g now cache cancelled repoPath wsName with
  | (Except.error _, qs) => { ok := false, cache := cache, queries := qs }
  | (Except.ok repo, qs) =>
      { ok := true, cache := insertAt cache repoPath repo, queries := qs }

/-- Result of `Scanner.ScanSingleWorkspace`: the scanned records it reports,
the discovery error (if any), and the cache it left behind. -/
structure SingleScanOutcome where
  repos : List RepoInfo
  errMsg : Option String
  cache : Cache

/-- `Scanner.ScanSingleWorkspace` (scanner.go lines 302-351): discover the
workspace's repos (`disc` is the discovery oracle, i.e. `discoverRepos` over
the real filesystem), scan them against the pre-scan cache, then delete the
cache entries whose `workspaceName` equals this workspace's name and upsert
the scanned records. On discovery failure the cache is untouched. -/
def scanSingleWorkspace (g : GitOracle) (now : Int)
    (disc : Workspace → Except String (List String)) (cache : Cache)
    (ws : Workspace) : SingleScanOutcome :=
  match disc ws with
  | Except.error e => { repos := [], errMsg := some e, cache := cache }
  | Except.ok paths =>
      let scanned := scanRepos g now cache false paths ws.name
      let c1 := removeWorkspaceEntries cache (fun n => n = ws.name)
      { repos := scanned, errMsg := none, cache := upsertAll c1 scanned }

/-- The per-workspace loop of `Scanner.ScanWorkspaces` (scanner.go lines
49-61), in config order: accumulates the scanned records, the formatted
per-workspace discovery error strings, and the names of the successfully
scanned workspaces. Every scan reads the pre-scan cache, as in the code
(the merge happens only after the loop). -/
def scanWorkspacesCore (g : GitOracle) (now : Int)
    (disc : Workspace → Except String (List String)) (cache : Cache) :
    List Workspace → List RepoInfo × List String × List String
  | [] => ([], [], [])
  | ws :: rest =>
      match disc ws with
      | Except.error e =>
          let acc := scanWorkspacesCore g now disc cache rest
          (acc.1, ("workspace " ++ ws.name ++ ": " ++ e) :: acc.2.1, acc.2.2)
      | Except.ok paths =>
          let acc := scanWorkspacesCore g now disc cache rest
          (scanRepos g now cache false paths ws.name ++ acc.1, acc.2.1,
           ws.name :: acc.2.2)

/-- Result of `Scanner.ScanWorkspaces`: reported records, aggregated error,
resulting cache, and (for stating properties) the per-workspace error list
and the successfully-scanned workspace names. -/
structure FullScanOutcome where
  repos : List RepoInfo
  errs : List String
  errMsg : Option String
  cache : Cache
  successful : List String

/-- `Scanner.ScanWorkspaces` (scanner.go lines 37-96): run every configured
workspace, then delete the cache entries belonging to successfully scanned
workspaces and upsert all newly scanned records; aggregate the discovery
errors into one joined string. (The final `cache.Save()` is modelled as
succeeding.) -/
def scanWorkspaces (g : GitOracle) (now : Int)
    (disc : Workspace → Except String (List String)) (config : List Workspace)
    (cache : Cache) : FullScanOutcome :=
  let acc := scanWorkspacesCore g now disc cache config
  let c1 := removeWorkspaceEntries cache (fun n => acc.2.2.contains n)
  { repos := acc.1
    errs := acc.2.1
    errMsg :=
      if acc.2.1.isEmpty then none
      else some ("scan errors: " ++ String.intercalate "; " acc.2.1)
    cache := upsertAll c1 acc.1
    successful := acc.2.2 }

/-- The `sort.Slice` comparator of `Scanner.GetCachedRepos` (scanner.go lines
110-124): `repoLT a b` holds when `a` must come before `b` — known commit
times descending, records with a time before records without, and otherwise
name ascending. -/
def repoLT (a b : RepoInfo) : Bool :=
  if a.lastCommitTime ≠ 0 && b.lastCommitTime ≠ 0 then
    decide (b.lastCommitTime < a.lastCommitTime)
  else if a.lastCommitTime ≠ 0 && b.lastCommitTime = 0 then true
  else if a.lastCommitTime = 0 && b.lastCommitTime ≠ 0 then false
  else strLT a.name b.name

/-- The non-strict companion of `repoLT`: `a` may be placed before `b`. A
comparison sort driven by the `repoLT` comparator produces exactly the
arrangements pairwise ordered by `repoLE`. -/
def repoLE (a b : RepoInfo) : Prop := repoLT b a = false

instance : DecidableRel repoLE := fun a b => inferInstanceAs (Decidable (repoLT b a = false))

/-- `Scanner.GetCachedRepos` (scanner.go lines 99-127): enumerate the cache
map and sort with the `repoLT` comparator. The map enumeration order is not
fixed by the language, so the enumeration is an input here; `sort.Slice` is
modelled by insertion sort over the same comparator. -/
def getCachedRepos (enumeration : List RepoInfo) : List RepoInfo :=
  List.insertionSort repoLE enumeration

/-- A second-level directory entry as seen by `discoverReposQuick`:
`hasGitEntry` models `os.Stat(filepath.Join(subPath, ".git"))` succeeding. -/
structure SubDirEntry where
  name : String
  isDir : Bool
  hasGitEntry : Bool
deriving Repr, DecidableEq

/-- A first-level directory entry as seen by `discoverReposQuick`:
`hasGitEntry`, `hasHeadEntry`, `hasRefsEntry` model the three `os.Stat`
checks; `children` is `os.ReadDir(entryPath)` (`none` = unreadable). -/
structure DirEntry where
  name : String
  isDir : Bool
  hasGitEntry : Bool
  hasHeadEntry : Bool
  hasRefsEntry : Bool
  children : Option (List SubDirEntry)
deriving Repr, DecidableEq

/-- `filepath.Join` for the nonempty clean components the scanner joins. -/
def joinPath (a b : String) : String := a ++ "/" ++ b

/-- The skip test of the second-level loop of `Scanner.discoverReposQuick`
(scanner.go lines 455-457). -/
def quickScanSkip (n : String) : Bool :=
  n == "node_modules" || n == "target" || n == "build" || n == "dist"

/-- The skip-list switch inside `Scanner.discoverRepos` (scanner.go lines
164-169), applied by the full recursive walk at every level. -/
def fullScanSkip (n : String) : Bool :=
  n == "node_modules" || n == "target" || n == "build" || n == "dist" ||
  n == ".next" || n == ".nuxt" || n == "vendor"

/-- The inner loop of `Scanner.discoverReposQuick` (scanner.go lines 447-464):
over the children of a non-repo first-level directory, report every
directory that passes the skip test and contains a `.git` entry. -/
def quickScanSub (entryPath : String) (subs : List SubDirEntry) : List String :=
  subs.filterMap fun sub =>
    if !sub.isDir then none
    else if quickScanSkip sub.name then none
    else if sub.hasGitEntry then some (joinPath entryPath sub.name)
    else none

/-- `Scanner.discoverReposQuick` (scanner.go lines 398-468): shallow
two-level discovery. First-level directories: skip hidden names other than
`.git`; report the ones with a `.git` entry, or with both `HEAD` and `refs`
(bare repo); otherwise scan their readable children one level down.
(Cancellation only truncates the walk and is not modelled; the workspace
root is assumed readable.) -/
def discoverReposQuick (wsPath : String) (entries : List DirEntry) : List String :=
  entries.foldl
    (fun acc e =>
      if !e.isDir then acc
      else if strHasPre e.name "." && e.name ≠ ".git" then acc
      else
        let entryPath := joinPath wsPath e.name
        if e.hasGitEntry then acc ++ [entryPath]
        else if e.hasHeadEntry && e.hasRefsEntry then acc ++ [entryPath]
        else
          match e.children with
          | none => acc
          | some subs => acc ++ quickScanSub entryPath subs)
    []

/-! ### Cache persistence (workspace.go) -/

/-- The JSON documents produced and consumed by the cache persistence layer
(timestamps are modelled as integers, see the file header). -/
inductive Json where
  | str : String → Json
  | num : Int → Json
  | jbool : Bool → Json
  | obj : List (String × Json) → Json
deriving Repr

/-- Mirror of `workspace.RepoCache` (workspace.go lines 48-53), with the map
as an association list so that key enumeration is explicit. -/
structure RepoCacheData where
  version : Int
  repos : List (String × RepoInfo)
  lastRepoPath : String
  lastWorkspace : String
deriving Repr, DecidableEq

/-- Field lookup inside a JSON object. -/
def jLookup (k : String) : List (String × Json) → Option Json
  | [] => none
  | (k2, v) :: rest => if k2 = k then some v else jLookup k rest

/-- Read a JSON string. -/
def asStr : Json → Option String
  | Json.str s => some s
  | _ => none

/-- Read a JSON number. -/
def asNum : Json → Option Int
  | Json.num n => some n
  | _ => none

/-- Read a JSON boolean. -/
def asJBool : Json → Option Bool
  | Json.jbool b => some b
  | _ => none

/-- `json.Marshal` of one `RepoInfo`, field names as in the struct tags. -/
def encodeRepoInfo (r : RepoInfo) : Json :=
  Json.obj
    [("path", Json.str r.path), ("name", Json.str r.name),
     ("branch", Json.str r.branch), ("ahead", Json.num r.ahead),
     ("behind", Json.num r.behind), ("hasUpstream", Json.jbool r.hasUpstream),
     ("lastCommitTime", Json.num r.lastCommitTime),
     ("lastScanned", Json.num r.lastScanned),
     ("workspaceName", Json.str r.workspaceName)]

/-- `json.Unmarshal` of one `RepoInfo`. -/
def decodeRepoInfo (j : Json) : Option RepoInfo :=
  match j with
  | Json.obj fields => do
      let path ← (jLookup "path" fields).bind asStr
      let name ← (jLookup "name" fields).bind asStr
      let branch ← (jLookup "branch" fields).bind asStr
      let ahead ← (jLookup "ahead" fields).bind asNum
      let behind ← (jLookup "behind" fields).bind asNum
      let hasUpstream ← (jLookup "hasUpstream" fields).bind asJBool
      let lastCommitTime ← (jLookup "lastCommitTime" fields).bind asNum
      let lastScanned ← (jLookup "lastScanned" fields).bind asNum
      let workspaceName ← (jLookup "workspaceName" fields).bind asStr
      pure { path := path, name := name, branch := branch, ahead := ahead,
             behind := behind, hasUpstream := hasUpstream,
             lastCommitTime := lastCommitTime, lastScanned := lastScanned,
             workspaceName := workspaceName }
  | _ => none

/-- Go's `json.Marshal` emits map keys in byte-wise ascending order. -/
def sortByKey (l : List (String × RepoInfo)) : List (String × RepoInfo) :=
  List.insertionSort (fun a b => strLT b.1 a.1 = false) l

/-- `json.MarshalIndent` of a `RepoCache` value. -/
def encodeRepoCache (c : RepoCacheData) : Json :=
  Json.obj
    [("version", Json.num c.version),
     ("repos", Json.obj ((sortByKey c.repos).map fun kv => (kv.1, encodeRepoInfo kv.2))),
     ("lastRepoPath", Json.str c.lastRepoPath),
     ("lastWorkspace", Json.str c.lastWorkspace)]

/-- `json.Unmarshal` of the `repos` object: decode every value, failing if
any entry is malformed. -/
def decodeRepoEntries : List (String × Json) → Option (List (String × RepoInfo))
  | [] => some []
  | (k, v) :: rest => do
      let r ← decodeRepoInfo v
      let tail ← decodeRepoEntries rest
      pure ((k, r) :: tail)

/-- `json.Unmarshal` of a whole cache file. -/
def decodeRepoCache (j : Json) : Option RepoCacheData :=
  match j with
  | Json.obj fields => do
      let version ← (jLookup "version" fields).bind asNum
      let reposJson ← jLookup "repos" fields
      let entries ←
        match reposJson with
        | Json.obj es => some es
        | _ => none
      let repos ← decodeRepoEntries entries
      let lastRepoPath ← (jLookup "lastRepoPath" fields).bind asStr
      let lastWorkspace ← (jLookup "lastWorkspace" fields).bind asStr
      pure { version := version, repos := repos, lastRepoPath := lastRepoPath,
             lastWorkspace := lastWorkspace }
  | _ => none

/-- `RepoCache.Save` (workspace.go lines 169-189): stamp the cache with the
current time and marshal it. The returned value is the file content written
to disk. -/
def saveRepoCache (c : RepoCacheData) (now : Int) : Json :=
  encodeRepoCache { c with version := now }

/-- `LoadRepoCache` (workspace.go lines 145-166): a missing file yields a
fresh empty cache stamped `now`; a present file is parsed, a parse failure
(`none`) is surfaced as an error. -/
def loadRepoCache (file : Option Json) (now : Int) : Option RepoCacheData :=
  match file with
  | none => some { version := now, repos := [], lastRepoPath := "", lastWorkspace := "" }
  | some j => decodeRepoCache j

/-! ### Order-theoretic facts about the `GetCachedRepos` comparator -/

theorem char_toNat_inj {a b : Char} (h : a.toNat = b.toNat) : a = b := by
  have h2 := congrArg Char.ofNat h
  rwa [Char.ofNat_toNat, Char.ofNat_toNat] at h2

theorem charListLT_irrefl (l : List Char) : charListLT l l = false := by
  induction l with
  | nil => rfl
  | cons a as ih => simp [charListLT, ih]

theorem charListLT_trans {a b c : List Char} (h1 : charListLT a b = true)
    (h2 : charListLT b c = true) : charListLT a c = true := by
  induction a generalizing b c with
  | nil =>
      cases b with
      | nil => simp [charListLT] at h1
      | cons y bs =>
          cases c with
          | nil => simp [charListLT] at h2
          | cons z cs => simp [charListLT]
  | cons x as ih =>
      cases b with
      | nil => simp [charListLT] at h1
      | cons y bs =>
          cases c with
          | nil => simp [charListLT] at h2
          | cons z cs =>
              simp only [charListLT] at h1 h2 ⊢
              by_cases hxy : x.toNat < y.toNat
              · by_cases hyz : y.toNat < z.toNat
                · simp [show x.toNat < z.toNat by omega]
                · by_cases hzy : z.toNat < y.toNat
                  · simp [hyz, hzy] at h2
                  · simp [show x.toNat < z.toNat by omega]
              · by_cases hyx : y.toNat < x.toNat
                · simp [hxy, hyx] at h1
                · simp [hxy, hyx] at h1
                  by_cases hyz : y.toNat < z.toNat
                  · simp [show x.toNat < z.toNat by omega]
                  · by_cases hzy : z.toNat < y.toNat
                    · simp [hyz, hzy] at h2
                    · simp [hyz, hzy] at h2
                      simp [show ¬ x.toNat < z.toNat by omega,
                        show ¬ z.toNat < x.toNat by omega]
                      exact ih h1 h2

theorem charListLT_connex {a b : List Char} (h1 : charListLT a b = false)
    (h2 : charListLT b a = false) : a = b := by
  induction a generalizing b with
  | nil =>
      cases b with
      | nil => rfl
      | cons y bs => simp [charListLT] at h1
  | cons x as ih =>
      cases b with
      | nil => simp [charListLT] at h2
      | cons y bs =>
          simp only [charListLT] at h1 h2
          by_cases hxy : x.toNat < y.toNat
          · simp [hxy] at h1
          · by_cases hyx : y.toNat < x.toNat
            · simp [hxy, hyx] at h2
            · simp [hxy, hyx] at h1 h2
              have hx : x = y := char_toNat_inj (by omega)
              have ht : as = bs := ih h1 h2
              rw [hx, ht]

theorem strLT_irrefl (a : String) : strLT a a = false := charListLT_irrefl a.data

theorem strLT_trans {a b c : String} (h1 : strLT a b = true) (h2 : strLT b c = true) :
    strLT a c = true := charListLT_trans h1 h2

theorem strLT_connex {a b : String} (h1 : strLT a b = false) (h2 : strLT b a = false) :
    a = b := by
  cases a with
  | mk da =>
      cases b with
      | mk db => exact congrArg String.mk (charListLT_connex h1 h2)

theorem strLT_asymm {a b : String} (h : strLT a b = true) : strLT b a = false := by
  cases hba : strLT b a with
  | false => rfl
  | true =>
      have h2 := strLT_trans h hba
      rw [strLT_irrefl] at h2
      exact absurd h2 (by simp)

theorem strLT_neg_trans {a b c : String} (h1 : strLT b a = false) (h2 : strLT c b = false) :
    strLT c a = false := by
  cases hca : strLT c a with
  | false => rfl
  | true =>
      exfalso
      cases hab : strLT a b with
      | true =>
          have hcb := strLT_trans hca hab
          rw [hcb] at h2
          exact absurd h2 (by simp)
      | false =>
          have heq : a = b := strLT_connex hab h1
          rw [← heq, hca] at h2
          exact absurd h2 (by simp)

/-- Case characterisation of the comparator. -/
theorem repoLT_iff (a b : RepoInfo) :
    repoLT a b = true ↔
      (a.lastCommitTime ≠ 0 ∧ b.lastCommitTime ≠ 0 ∧ b.lastCommitTime < a.lastCommitTime) ∨
      (a.lastCommitTime ≠ 0 ∧ b.lastCommitTime = 0) ∨
      (a.lastCommitTime = 0 ∧ b.lastCommitTime = 0 ∧ strLT a.name b.name = true) := by
  unfold repoLT
  by_cases ha : a.lastCommitTime = 0 <;> by_cases hb : b.lastCommitTime = 0 <;>
    simp [ha, hb]

instance : IsTotal RepoInfo repoLE := by
  constructor
  intro a b
  cases hba : repoLT b a with
  | false => exact Or.inl hba
  | true =>
      right
      show repoLT a b = false
      cases hab : repoLT a b with
      | false => rfl
      | true =>
          exfalso
          rw [repoLT_iff] at hba hab
          rcases hba with ⟨h1, h2, h3⟩ | ⟨h1, h2⟩ | ⟨h1, h2, h3⟩ <;>
            rcases hab with ⟨g1, g2, g3⟩ | ⟨g1, g2⟩ | ⟨g1, g2, g3⟩ <;>
              first
                | omega
                | (rw [strLT_asymm h3] at g3; exact absurd g3 (by simp))

instance : IsTrans RepoInfo repoLE := by
  constructor
  intro a b c hab hbc
  have hab2 : repoLT b a = false := hab
  have hbc2 : repoLT c b = false := hbc
  show repoLT c a = false
  cases hca : repoLT c a with
  | false => rfl
  | true =>
      exfalso
      rw [repoLT_iff] at hca
      rcases hca with ⟨h1, h2, h3⟩ | ⟨h1, h2⟩ | ⟨h1, h2, h3⟩
      · by_cases hb0 : b.lastCommitTime = 0
        · have hcb : repoLT c b = true := (repoLT_iff c b).mpr (Or.inr (Or.inl ⟨h1, hb0⟩))
          rw [hcb] at hbc2
          exact absurd hbc2 (by simp)
        · have hba_nlt : ¬ a.lastCommitTime < b.lastCommitTime := by
            intro hlt
            have hx : repoLT b a = true := (repoLT_iff b a).mpr (Or.inl ⟨hb0, h2, hlt⟩)
            rw [hx] at hab2
            exact absurd hab2 (by simp)
          have hcb_nlt : ¬ b.lastCommitTime < c.lastCommitTime := by
            intro hlt
            have hx : repoLT c b = true := (repoLT_iff c b).mpr (Or.inl ⟨h1, hb0, hlt⟩)
            rw [hx] at hbc2
            exact absurd hbc2 (by simp)
          omega
      · by_cases hb0 : b.lastCommitTime = 0
        · have hcb : repoLT c b = true := (repoLT_iff c b).mpr (Or.inr (Or.inl ⟨h1, hb0⟩))
          rw [hcb] at hbc2
          exact absurd hbc2 (by simp)
        · have hba : repoLT b a = true := (repoLT_iff b a).mpr (Or.inr (Or.inl ⟨hb0, h2⟩))
          rw [hba] at hab2
          exact absurd hab2 (by simp)
      · by_cases hb0 : b.lastCommitTime = 0
        · have hsba : strLT b.name a.name = false := by
            cases hs : strLT b.name a.name with
            | false => rfl
            | true =>
                have hx : repoLT b a = true :=
                  (repoLT_iff b a).mpr (Or.inr (Or.inr ⟨hb0, h2, hs⟩))
                rw [hx] at hab2
                exact absurd hab2 (by simp)
          have hscb : strLT c.name b.name = false := by
            cases hs : strLT c.name b.name with
            | false => rfl
            | true =>
                have hx : repoLT c b = true :=
                  (repoLT_iff c b).mpr (Or.inr (Or.inr ⟨h1, hb0, hs⟩))
                rw [hx] at hbc2
                exact absurd hbc2 (by simp)
          have := strLT_neg_trans hsba hscb
          rw [h3] at this
          exact absurd this (by simp)
        · have hba : repoLT b a = true := (repoLT_iff b a).mpr (Or.inr (Or.inl ⟨hb0, h2⟩))
          rw [hba] at hab2
          exact absurd hab2 (by simp)

/-! ### Helper lemmas about the scanner operations -/

theorem enrichFields_path (g : GitOracle) (r : RepoInfo) :
    (enrichFields g r).path = r.path := by
  unfold enrichFields
  cases g.currentBranch r.path <;> cases g.aheadBehind r.path <;>
    rcases g.commits r.path with _ | (_ | ⟨t, ts⟩) <;> simp

theorem enrichFields_lastScanned (g : GitOracle) (r : RepoInfo) :
    (enrichFields g r).lastScanned = r.lastScanned := by
  unfold enrichFields
  cases g.currentBranch r.path <;> cases g.aheadBehind r.path <;>
    rcases g.commits r.path with _ | (_ | ⟨t, ts⟩) <;> simp

theorem enrichFields_workspaceName (g : GitOracle) (r : RepoInfo) :
    (enrichFields g r).workspaceName = r.workspaceName := by
  unfold enrichFields
  cases g.currentBranch r.path <;> cases g.aheadBehind r.path <;>
    rcases g.commits r.path with _ | (_ | ⟨t, ts⟩) <;> simp

theorem enrichFields_branch_none (g : GitOracle) (r : RepoInfo)
    (h : g.currentBranch r.path = none) : (enrichFields g r).branch = r.branch := by
  unfold enrichFields
  rw [h]
  cases g.aheadBehind r.path <;>
    rcases g.commits r.path with _ | (_ | ⟨t, ts⟩) <;> simp

theorem enrichFields_branch_some (g : GitOracle) (r : RepoInfo) (b : String)
    (h : g.currentBranch r.path = some b) : (enrichFields g r).branch = b := by
  unfold enrichFields
  rw [h]
  cases g.aheadBehind r.path <;>
    rcases g.commits r.path with _ | (_ | ⟨t, ts⟩) <;> simp

theorem enrichFields_upstream_none (g : GitOracle) (r : RepoInfo)
    (h : g.aheadBehind r.path = none) :
    (enrichFields g r).ahead = r.ahead ∧ (enrichFields g r).behind = r.behind ∧
      (enrichFields g r).hasUpstream = r.hasUpstream := by
  unfold enrichFields
  rw [h]
  cases g.currentBranch r.path <;>
    rcases g.commits r.path with _ | (_ | ⟨t, ts⟩) <;> simp

theorem enrichFields_upstream_some (g : GitOracle) (r : RepoInfo) (ab : Int × Int)
    (h : g.aheadBehind r.path = some ab) :
    (enrichFields g r).ahead = ab.1 ∧ (enrichFields g r).behind = ab.2 ∧
      (enrichFields g r).hasUpstream = true := by
  unfold enrichFields
  rw [h]
  cases g.currentBranch r.path <;>
    rcases g.commits r.path with _ | (_ | ⟨t, ts⟩) <;> simp

theorem enrichFields_commits_fail (g : GitOracle) (r : RepoInfo)
    (h : g.commits r.path = none ∨ g.commits r.path = some []) :
    (enrichFields g r).lastCommitTime = r.lastCommitTime := by
  unfold enrichFields
  rcases h with h | h <;> rw [h] <;>
    cases g.currentBranch r.path <;> cases g.aheadBehind r.path <;> simp

theorem enrichFields_commits_cons (g : GitOracle) (r : RepoInfo) (t : Int) (ts : List Int)
    (h : g.commits r.path = some (t :: ts)) :
    (enrichFields g r).lastCommitTime = t := by
  unfold enrichFields
  rw [h]

theorem scanRepo_ok (g : GitOracle) (now : Int) (cache : Cache) (p ws : String) :
    ((scanRepo g now cache false p ws).1).toOption.isSome = true := by
  unfold scanRepo
  cases cache p with
  | none => simp [Except.toOption]
  | some c =>
      by_cases h : now - c.lastScanned < stalenessThreshold <;>
        simp [h, Except.toOption]

theorem scanRepos_length (g : GitOracle) (now : Int) (cache : Cache)
    (paths : List String) (ws : String) :
    (scanRepos g now cache false paths ws).length = paths.length := by
  induction paths with
  | nil => rfl
  | cons p rest ih =>
      have h := scanRepo_ok g now cache p ws
      unfold scanRepos at ih ⊢
      cases ho : ((scanRepo g now cache false p ws).1).toOption with
      | none => rw [ho] at h; simp at h
      | some r => simp [List.filterMap_cons, ho, ih]

theorem upsertAll_frame (c : Cache) (rs : List RepoInfo) (p : String)
    (h : ∀ rr ∈ rs, rr.path ≠ p) : upsertAll c rs p = c p := by
  induction rs generalizing c with
  | nil => rfl
  | cons r rest ih =>
      have hr : r.path ≠ p := h r (List.mem_cons_self r rest)
      have hstep : upsert c r p = c p := by
        unfold upsert insertAt
        rw [if_neg (fun hpq : p = r.path => hr hpq.symm)]
      calc upsertAll c (r :: rest) p
          = upsertAll (upsert c r) rest p := rfl
        _ = upsert c r p := ih (upsert c r) (fun rr hrr => h rr (List.mem_cons_of_mem r hrr))
        _ = c p := hstep

theorem findWorkspaceName_first_match (config : List Workspace) (p : String)
    (pre : List Workspace) (ws : Workspace) (rest : List Workspace)
    (hcfg : config = pre ++ ws :: rest)
    (hpre : ∀ w ∈ pre, strHasPre p w.path = false)
    (hws : strHasPre p ws.path = true) :
    findWorkspaceName config p = ws.name := by
  subst hcfg
  induction pre with
  | nil =>
      unfold findWorkspaceName
      rw [List.nil_append,
        @List.find?_cons_of_pos _ (fun w => strHasPre p w.path) ws rest (by simpa using hws)]
  | cons w pre2 ih =>
      have hw : strHasPre p w.path = false := hpre w (List.mem_cons_self w pre2)
      unfold findWorkspaceName at ih ⊢
      rw [List.cons_append,
        @List.find?_cons_of_neg _ (fun w2 => strHasPre p w2.path) w (pre2 ++ ws :: rest)
          (by simp [hw])]
      exact ih (fun w2 hw2 => hpre w2 (List.mem_cons_of_mem w hw2))

theorem findWorkspaceName_no_match (config : List Workspace) (p : String)
    (h : ∀ w ∈ config, strHasPre p w.path = false) :
    findWorkspaceName config p = "" := by
  unfold findWorkspaceName
  rw [List.find?_eq_none.mpr (fun w hw => by simp [h w hw])]

/-! ### Helper lemmas about the full-scan loop -/

theorem workspaceName_unique (config : List Workspace)
    (hnd : (config.map Workspace.name).Nodup) (w1 w2 : Workspace)
    (h1 : w1 ∈ config) (h2 : w2 ∈ config) (hn : w1.name = w2.name) : w1 = w2 := by
  induction config with
  | nil => cases h1
  | cons w rest ih =>
      rw [List.map_cons, List.nodup_cons] at hnd
      rcases List.mem_cons.mp h1 with e1 | m1 <;> rcases List.mem_cons.mp h2 with e2 | m2
      · rw [e1, e2]
      · exfalso
        apply hnd.1
        rw [← e1, hn]
        exact List.mem_map_of_mem Workspace.name m2
      · exfalso
        apply hnd.1
        rw [← e2, ← hn]
        exact List.mem_map_of_mem Workspace.name m1
      · exact ih hnd.2 m1 m2

theorem scanWorkspacesCore_successful_mem (g : GitOracle) (now : Int)
    (disc : Workspace → Except String (List String)) (cache : Cache)
    (config : List Workspace) (n : String)
    (h : n ∈ (scanWorkspacesCore g now disc cache config).2.2) :
    ∃ ws ∈ config, ws.name = n ∧ ∃ paths, disc ws = Except.ok paths := by
  induction config with
  | nil => simp [scanWorkspacesCore] at h
  | cons ws rest ih =>
      rcases hd : disc ws with e | paths <;>
        simp only [scanWorkspacesCore, hd] at h
      · obtain ⟨w2, hm, hn2, hp⟩ := ih h
        exact ⟨w2, List.mem_cons_of_mem ws hm, hn2, hp⟩
      · rcases List.mem_cons.mp h with he | hm
        · exact ⟨ws, List.mem_cons_self ws rest, he.symm, paths, hd⟩
        · obtain ⟨w2, hm2, hn2, hp⟩ := ih hm
          exact ⟨w2, List.mem_cons_of_mem ws hm2, hn2, hp⟩

theorem scanWorkspacesCore_error_mem (g : GitOracle) (now : Int)
    (disc : Workspace → Except String (List String)) (cache : Cache)
    (config : List Workspace) (wsf : Workspace) (e : String)
    (hmem : wsf ∈ config) (hd : disc wsf = Except.error e) :
    ("workspace " ++ wsf.name ++ ": " ++ e) ∈ (scanWorkspacesCore g now disc cache config).2.1 := by
  induction config with
  | nil => cases hmem
  | cons ws rest ih =>
      rcases List.mem_cons.mp hmem with he | hm
      · subst he
        simp only [scanWorkspacesCore, hd]
        exact List.mem_cons_self _ _
      · rcases hdw : disc ws with e2 | paths <;> simp only [scanWorkspacesCore, hdw]
        · exact List.mem_cons_of_mem _ (ih hm)
        · exact ih hm

theorem scanWorkspacesCore_repos_mem (g : GitOracle) (now : Int)
    (disc : Workspace → Except String (List String)) (cache : Cache)
    (config : List Workspace) (ws : Workspace) (paths : List String)
    (hmem : ws ∈ config) (hd : disc ws = Except.ok paths) (rr : RepoInfo)
    (hrr : rr ∈ scanRepos g now cache false paths ws.name) :
    rr ∈ (scanWorkspacesCore g now disc cache config).1 := by
  induction config with
  | nil => cases hmem
  | cons w rest ih =>
      rcases List.mem_cons.mp hmem with he | hm
      · subst he
        simp only [scanWorkspacesCore, hd]
        exact List.mem_append_left _ hrr
      · rcases hdw : disc w with e2 | paths2 <;> simp only [scanWorkspacesCore, hdw]
        · exact ih hm
        · exact List.mem_append_right _ (ih hm)

/-! ### Helper lemmas about cache persistence -/

theorem decodeRepoInfo_encode (r : RepoInfo) :
    decodeRepoInfo (encodeRepoInfo r) = some r := rfl

theorem decodeRepoEntries_encode (l : List (String × RepoInfo)) :
    decodeRepoEntries (l.map fun kv => (kv.1, encodeRepoInfo kv.2)) = some l := by
  induction l with
  | nil => rfl
  | cons kv rest ih =>
      simp only [List.map_cons, decodeRepoEntries, decodeRepoInfo_encode, ih,
        Option.bind_eq_bind, Option.some_bind]
      rfl

theorem lookup_eq_of_perm {l1 l2 : List (String × RepoInfo)} (h : l1.Perm l2)
    (hnd : (l1.map Prod.fst).Nodup) (k : String) :
    List.lookup k l1 = List.lookup k l2 := by
  induction h with
  | nil => rfl
  | cons x hrest ih =>
      rw [List.map_cons, List.nodup_cons] at hnd
      rcases x with ⟨xk, xv⟩
      by_cases hk : k = xk
      · simp [List.lookup, hk]
      · have hb : (k == xk) = false := beq_eq_false_iff_ne.mpr hk
        simp only [List.lookup, hb]
        exact ih hnd.2
  | swap x y l =>
      rcases x with ⟨xk, xv⟩
      rcases y with ⟨yk, yv⟩
      simp only [List.map_cons, List.nodup_cons, List.mem_cons, List.mem_map] at hnd
      have hxy : yk ≠ xk := fun hcontra => hnd.1 (Or.inl hcontra)
      by_cases hk1 : k = yk <;> by_cases hk2 : k = xk
      · exact absurd (hk2.symm.trans hk1) (fun hyx => hxy hyx.symm)
      · have hb1 : (k == yk) = true := beq_iff_eq.mpr hk1
        have hb2 : (k == xk) = false := beq_eq_false_iff_ne.mpr hk2
        simp only [List.lookup, hb1, hb2]
      · have hb1 : (k == yk) = false := beq_eq_false_iff_ne.mpr hk1
        have hb2 : (k == xk) = true := beq_iff_eq.mpr hk2
        simp only [List.lookup, hb1, hb2]
      · have hb1 : (k == yk) = false := beq_eq_false_iff_ne.mpr hk1
        have hb2 : (k == xk) = false := beq_eq_false_iff_ne.mpr hk2
        simp only [List.lookup, hb1, hb2]
  | trans h1 h2 ih1 ih2 =>
      have hnd2 := ((h1.map Prod.fst).nodup_iff).mp hnd
      rw [ih1 hnd, ih2 hnd2]

theorem joinPath_right_inj {a b c : String} (h : joinPath a b = joinPath a c) : b = c := by
  unfold joinPath at h
  have hd := congrArg String.data h
  rw [String.data_append, String.data_append, String.data_append, String.data_append] at hd
  have hd2 := List.append_cancel_left hd
  cases b with
  | mk db =>
      cases c with
      | mk dc => exact congrArg String.mk hd2

/-! ### Concrete values used to instantiate the theorems -/

/-- A git oracle whose three queries all succeed. -/
def sampleGit : GitOracle :=
  { currentBranch := fun _ => some "main", aheadBehind := fun _ => some (1, 2),
    commits := fun _ => some [7] }

/-- A git oracle whose branch and commit queries fail while ahead/behind
succeeds. -/
def mixedGit : GitOracle :=
  { currentBranch := fun _ => none, aheadBehind := fun _ => some (3, 4),
    commits := fun _ => none }

/-- A cached record scanned at time 90 (fresh at time 100). -/
def cachedRec : RepoInfo :=
  { path := "/w/r", name := "r", branch := "cached", ahead := 0, behind := 0,
    hasUpstream := false, lastCommitTime := 3, lastScanned := 90, workspaceName := "w1" }

/-- A cache holding only `cachedRec`. -/
def cacheOne : Cache := fun q => if q = "/w/r" then some cachedRec else none

/-- The empty cache. -/
def emptyCache : Cache := fun _ => none

/-! ### Claim theorems -/

/-- C4: for every path with a cached record whose `lastScanned` is less than
5 minutes old, `Scanner.scanRepo` makes zero external VCS queries and returns
that cached record unchanged in every field; a second enrichment within the
staleness window (under any oracle, time and workspace argument) returns the
identical record. -/
theorem scanRepo_fresh_cache_hit (g : GitOracle) (now : Int) (cache : Cache)
    (p ws : String) (c : RepoInfo) (hc : cache p = some c)
    (hfresh : now - c.lastScanned < stalenessThreshold) :
    scanRepo g now cache false p ws = (Except.ok c, []) ∧
    (∀ (g2 : GitOracle) (now2 : Int) (ws2 : String),
      now2 - c.lastScanned < stalenessThreshold →
      scanRepo g2 now2 cache false p ws2 = (Except.ok c, [])) := by
  constructor
  · simp [scanRepo, hc, hfresh]
  · intro g2 now2 ws2 h2
    simp [scanRepo, hc, h2]

/-- Witness for `scanRepo_fresh_cache_hit` at a concrete fresh cache. -/
theorem scanRepo_fresh_cache_hit_witness :
    scanRepo sampleGit 100 cacheOne false "/w/r" "w1" = (Except.ok cachedRec, []) :=
  (scanRepo_fresh_cache_hit sampleGit 100 cacheOne "/w/r" "w1" cachedRec (by decide)
    (by decide)).1

/-- C5: `Scanner.enrichRepoMetadata` — the enrichment body run by the
detached background task of `DiscoverReposIncremental`, after its spawning
caller has returned — unconditionally upserts the cache: when the context is
not cancelled, the resulting cache maps the repo path to exactly the record
the enrichment produced. -/
theorem enrichRepoMetadata_upserts (g : GitOracle) (repo : RepoInfo) (cache : Cache) :
    enrichRepoMetadata g false repo cache repo.path = some (enrichFields g repo) := by
  simp [enrichRepoMetadata, insertAt, enrichFields_path]

/-- C7: for every repo path and non-cancelled context, `Scanner.scanRepo`
never fails: when the staleness check does not divert to the cache it returns
`Except.ok` of the fresh record, a failed sub-query leaves its field at the
zero value while a successful one fills it, and the batch scan
(`Scanner.scanRepos`) drops no repository, surfacing no per-repo error. -/
theorem scanRepo_subquery_failures_nonfatal (g : GitOracle) (now : Int) (cache : Cache)
    (p ws : String)
    (hstale : ∀ c, cache p = some c → stalenessThreshold ≤ now - c.lastScanned) :
    (scanRepo g now cache false p ws).1 = Except.ok (freshScanRecord g now p ws) ∧
    (g.currentBranch p = none → (freshScanRecord g now p ws).branch = "") ∧
    (∀ b, g.currentBranch p = some b → (freshScanRecord g now p ws).branch = b) ∧
    (g.aheadBehind p = none → (freshScanRecord g now p ws).ahead = 0 ∧
      (freshScanRecord g now p ws).behind = 0 ∧
      (freshScanRecord g now p ws).hasUpstream = false) ∧
    (∀ ab, g.aheadBehind p = some ab → (freshScanRecord g now p ws).ahead = ab.1 ∧
      (freshScanRecord g now p ws).behind = ab.2 ∧
      (freshScanRecord g now p ws).hasUpstream = true) ∧
    ((g.commits p = none ∨ g.commits p = some []) →
      (freshScanRecord g now p ws).lastCommitTime = 0) ∧
    (∀ (paths : List String) (ws2 : String),
      (scanRepos g now cache false paths ws2).length = paths.length) := by
  refine ⟨?_, ?_, ?_, ?_, ?_, ?_, ?_⟩
  · unfold scanRepo
    cases hcp : cache p with
    | none => rfl
    | some c =>
        have hge := hstale c hcp
        simp [not_lt.mpr hge]
  · intro h
    exact enrichFields_branch_none g _ h
  · intro b h
    exact enrichFields_branch_some g _ b h
  · intro h
    exact enrichFields_upstream_none g _ h
  · intro ab h
    exact enrichFields_upstream_some g _ ab h
  · intro h
    exact enrichFields_commits_fail g _ h
  · intro paths ws2
    exact scanRepos_length g now cache paths ws2

/-- Witness for `scanRepo_subquery_failures_nonfatal` under an oracle with a
failed branch query, a successful ahead/behind query and a failed commit
query. -/
theorem scanRepo_subquery_failures_nonfatal_witness :
    (scanRepo mixedGit 100 emptyCache false "/q/s" "w2").1 =
      Except.ok (freshScanRecord mixedGit 100 "/q/s" "w2") ∧
    (freshScanRecord mixedGit 100 "/q/s" "w2").branch = "" ∧
    (freshScanRecord mixedGit 100 "/q/s" "w2").ahead = 3 ∧
    (freshScanRecord mixedGit 100 "/q/s" "w2").hasUpstream = true ∧
    (freshScanRecord mixedGit 100 "/q/s" "w2").lastCommitTime = 0 := by
  have h := scanRepo_subquery_failures_nonfatal mixedGit 100 emptyCache "/q/s" "w2"
    (fun c hc => nomatch hc)
  exact ⟨h.1, h.2.1 rfl, (h.2.2.2.2.1 (3, 4) rfl).1, (h.2.2.2.2.1 (3, 4) rfl).2.2,
    h.2.2.2.2.2.1 (Or.inl rfl)⟩

/-- C1 (counterexample): `Scanner.UpdateRepo` does not bypass the staleness
check. Against a cache holding a record scanned 10 nanoseconds ago, the call
issues zero external VCS queries and re-stores the cached record (branch
"cached") instead of a freshly enriched one (branch "main"). -/
theorem updateRepo_hits_staleness_cex :
    (updateRepo sampleGit 100 [{ name := "w1", path := "/w" }] cacheOne false
        "/w/r").queries = [] ∧
    (updateRepo sampleGit 100 [{ name := "w1", path := "/w" }] cacheOne false
        "/w/r").cache "/w/r" = some cachedRec ∧
    cachedRec.branch = "cached" ∧
    (freshScanRecord sampleGit 100 "/w/r" "w1").branch = "main" ∧
    cachedRec ≠ freshScanRecord sampleGit 100 "/w/r" "w1" ∧
    100 - cachedRec.lastScanned < stalenessThreshold := by decide

/-- C1 (amended): `Scanner.UpdateRepo` is a synchronous single-repo
re-enrichment that honours the staleness check it shares with every other
scan: with a cached record younger than 5 minutes it issues no external
query and re-upserts the cached record; with a stale record it issues the
three external queries and upserts the freshly enriched record. -/
theorem updateRepo_staleness_behavior (g : GitOracle) (now : Int)
    (config : List Workspace) (cache : Cache) (p : String) (c : RepoInfo)
    (hc : cache p = some c) :
    (now - c.lastScanned < stalenessThreshold →
      updateRepo g now config cache false p =
        { ok := true, cache := insertAt cache p c, queries := [] }) ∧
    (stalenessThreshold ≤ now - c.lastScanned →
      updateRepo g now config cache false p =
        { ok := true,
          cache := insertAt cache p (freshScanRecord g now p (findWorkspaceName config p)),
          queries := allQueries p }) := by
  constructor
  · intro h
    simp [updateRepo, scanRepo, hc, h]
  · intro h
    simp [updateRepo, scanRepo, hc, not_lt.mpr h]

/-- Witness for `updateRepo_staleness_behavior` on the fresh-cache branch. -/
theorem updateRepo_staleness_behavior_witness :
    updateRepo sampleGit 100 [{ name := "w1", path := "/w" }] cacheOne false "/w/r" =
      { ok := true, cache := insertAt cacheOne "/w/r" cachedRec, queries := [] } :=
  (updateRepo_staleness_behavior sampleGit 100 [{ name := "w1", path := "/w" }] cacheOne
    "/w/r" cachedRec (by decide)).1 (by decide)

/-- C10 (counterexample): when a fresh (younger than 5 minutes) cached record
exists, `Scanner.UpdateRepo` keeps that record with its original
`workspaceName` instead of assigning the first-prefix-match name from the
configuration. -/
theorem updateRepo_workspace_name_cex :
    findWorkspaceName [{ name := "new", path := "/w" }] "/w/r" = "new" ∧
    (updateRepo sampleGit 100 [{ name := "new", path := "/w" }] cacheOne false
        "/w/r").cache "/w/r" = some cachedRec ∧
    cachedRec.workspaceName = "w1" ∧
    (updateRepo sampleGit 100 [{ name := "new", path := "/w" }] cacheOne false
        "/w/r").ok = true := by decide

/-- C10 (amended): when no fresh cached record exists for the path,
`Scanner.UpdateRepo` assigns the name of the first configured workspace (in
config order) whose path is a plain string prefix of the repo path, returns
no error, and upserts the record; when no workspace path is a prefix it
still succeeds and upserts with an empty `workspaceName`. -/
theorem updateRepo_workspace_assignment (g : GitOracle) (now : Int)
    (config : List Workspace) (cache : Cache) (p : String)
    (hstale : ∀ c, cache p = some c → stalenessThreshold ≤ now - c.lastScanned) :
    (updateRepo g now config cache false p).ok = true ∧
    (updateRepo g now config cache false p).cache p =
      some (freshScanRecord g now p (findWorkspaceName config p)) ∧
    (freshScanRecord g now p (findWorkspaceName config p)).workspaceName =
      findWorkspaceName config p ∧
    (∀ (pre : List Workspace) (ws : Workspace) (rest : List Workspace),
      config = pre ++ ws :: rest →
      (∀ w ∈ pre, strHasPre p w.path = false) → strHasPre p ws.path = true →
      findWorkspaceName config p = ws.name) ∧
    ((∀ w ∈ config, strHasPre p w.path = false) → findWorkspaceName config p = "") := by
  refine ⟨?_, ?_, ?_, ?_, ?_⟩
  · unfold updateRepo
    cases hcp : cache p with
    | none => simp [scanRepo, hcp]
    | some c =>
        have hge := hstale c hcp
        simp [scanRepo, hcp, not_lt.mpr hge]
  · unfold updateRepo
    cases hcp : cache p with
    | none => simp [scanRepo, hcp, insertAt]
    | some c =>
        have hge := hstale c hcp
        simp [scanRepo, hcp, not_lt.mpr hge, insertAt]
  · exact enrichFields_workspaceName g _
  · intro pre ws rest hcfg hpre hws
    exact findWorkspaceName_first_match config p pre ws rest hcfg hpre hws
  · intro h
    exact findWorkspaceName_no_match config p h

/-- Witness for `updateRepo_workspace_assignment`: the workspace path
"/w/code" is treated as a plain string prefix, so it also matches the repo
path "/w/codeplus/r". -/
theorem updateRepo_workspace_assignment_witness :
    (updateRepo sampleGit 100 [{ name := "w1", path := "/w/code" }] emptyCache false
      "/w/codeplus/r").cache "/w/codeplus/r" =
      some (freshScanRecord sampleGit 100 "/w/codeplus/r"
        (findWorkspaceName [{ name := "w1", path := "/w/code" }] "/w/codeplus/r")) ∧
    findWorkspaceName [{ name := "w1", path := "/w/code" }] "/w/codeplus/r" = "w1" := by
  have h := updateRepo_workspace_assignment sampleGit 100
    [{ name := "w1", path := "/w/code" }] emptyCache "/w/codeplus/r"
    (fun c hc => nomatch hc)
  exact ⟨h.2.1, h.2.2.2.1 [] { name := "w1", path := "/w/code" } [] rfl
    (fun w hw => nomatch hw) (by decide)⟩

/-! ### Sorting claim (Snapshot) -/

/-- A record with a known commit time 10. -/
def repoT10 : RepoInfo :=
  { path := "/w/a", name := "ra", branch := "", ahead := 0, behind := 0,
    hasUpstream := false, lastCommitTime := 10, lastScanned := 0, workspaceName := "w" }

/-- A record with a known commit time 20. -/
def repoT20 : RepoInfo := { repoT10 with path := "/w/b", name := "rb", lastCommitTime := 20 }

/-- A record with no commit time, name "a". -/
def repoNameA : RepoInfo := { repoT10 with path := "/w/c", name := "a", lastCommitTime := 0 }

/-- A record with no commit time, name "z". -/
def repoNameZ : RepoInfo := { repoT10 with path := "/w/d", name := "z", lastCommitTime := 0 }

/-- Two distinct records with the same known commit time: a comparator tie. -/
def tieP : RepoInfo := { repoT10 with path := "/w/p", name := "p", lastCommitTime := 5 }

/-- The other half of the comparator tie. -/
def tieQ : RepoInfo := { repoT10 with path := "/w/q", name := "q", lastCommitTime := 5 }

/-- C2 (counterexample): the comparator of `Scanner.GetCachedRepos` is not a
strict total order — two distinct records with equal known commit times
compare as a tie in both directions — and two enumerations of the same cache
contents (Go map iteration order is unspecified) sort to different
sequences, so repeated calls with no underlying change need not yield the
identical sequence. -/
theorem getCachedRepos_tie_order_cex :
    ([tieP, tieQ] : List RepoInfo).Perm [tieQ, tieP] ∧
    tieP ≠ tieQ ∧
    repoLT tieP tieQ = false ∧ repoLT tieQ tieP = false ∧
    getCachedRepos [tieP, tieQ] = [tieP, tieQ] ∧
    getCachedRepos [tieQ, tieP] = [tieQ, tieP] ∧
    getCachedRepos [tieP, tieQ] ≠ getCachedRepos [tieQ, tieP] := by decide

/-- C2 (amended): `Scanner.GetCachedRepos` sorts its enumeration of the cache
with the comparator — known commit times descending, timed records before
timeless ones, timeless records by name ascending — producing a permutation
of the cache contents that is pairwise ordered by the comparator; on the
spec's example A(t=10), B(t=20), C(no time, "a"), D(no time, "z") the result
is exactly [B, A, C, D]. The order is a strict weak order but not total:
records tying on the comparator keep the enumeration order of the map, which
the language does not fix, so only tie-free caches have a unique output. -/
theorem getCachedRepos_sorts :
    getCachedRepos [repoT10, repoT20, repoNameA, repoNameZ] =
      [repoT20, repoT10, repoNameA, repoNameZ] ∧
    (∀ l : List RepoInfo, (getCachedRepos l).Perm l) ∧
    (∀ l : List RepoInfo, List.Sorted repoLE (getCachedRepos l)) :=
  ⟨by decide, fun l => List.perm_insertionSort repoLE l,
    fun l => List.sorted_insertionSort repoLE l⟩

/-! ### Frame claims (single- and multi-workspace scans) -/

/-- A stale cache entry belonging to workspace "w2" at a path that workspace
"w1" will rediscover. -/
def staleOtherRec : RepoInfo :=
  { path := "/a/r", name := "r", branch := "old", ahead := 0, behind := 0,
    hasUpstream := false, lastCommitTime := 1, lastScanned := 0, workspaceName := "w2" }

/-- A cache holding only `staleOtherRec`. -/
def cacheOther : Cache := fun q => if q = "/a/r" then some staleOtherRec else none

/-- Workspace "w1" rooted at "/a". -/
def wsA : Workspace := { name := "w1", path := "/a" }

/-- A discovery oracle that finds the repo at "/a/r". -/
def discA : Workspace → Except String (List String) := fun _ => Except.ok ["/a/r"]

/-- A discovery oracle that always fails. -/
def discFail : Workspace → Except String (List String) := fun _ => Except.error "boom"

/-- C3 (counterexample): a scan scoped to workspace "w1" can mutate a cache
entry whose `workspaceName` is "w2": when the configured roots overlap, the
upsert loop overwrites the other workspace's record at a rediscovered path. -/
theorem scanSingleWorkspace_overwrites_other_workspace_cex :
    staleOtherRec.workspaceName = "w2" ∧ wsA.name = "w1" ∧
    cacheOther "/a/r" = some staleOtherRec ∧
    (scanSingleWorkspace sampleGit 1000000000000 discA cacheOther wsA).cache "/a/r" =
      some (freshScanRecord sampleGit 1000000000000 "/a/r" "w1") ∧
    freshScanRecord sampleGit 1000000000000 "/a/r" "w1" ≠ staleOtherRec := by decide

/-- C3 (amended): a scan scoped to workspace W leaves every cache entry of a
different workspace unchanged provided the scan does not rediscover a repo at
that entry's path (which can only happen when workspace roots overlap): the
deletion loop only ever removes entries whose `workspaceName` equals W's
name, and the upsert loop only writes scanned paths. -/
theorem scanSingleWorkspace_frame (g : GitOracle) (now : Int)
    (disc : Workspace → Except String (List String)) (cache : Cache) (ws : Workspace)
    (p : String) (r : RepoInfo) (hc : cache p = some r)
    (hname : r.workspaceName ≠ ws.name)
    (hscanned : ∀ paths, disc ws = Except.ok paths →
      ∀ rr ∈ scanRepos g now cache false paths ws.name, rr.path ≠ p) :
    (scanSingleWorkspace g now disc cache ws).cache p = some r := by
  cases hd : disc ws with
  | error e => simp [scanSingleWorkspace, hd, hc]
  | ok paths =>
      have hfr := hscanned paths hd
      simp only [scanSingleWorkspace, hd]
      rw [upsertAll_frame _ _ _ hfr]
      simp [removeWorkspaceEntries, hc, hname]

/-- Witness for `scanSingleWorkspace_frame`: a failed discovery leaves the
other workspace's entry in place. -/
theorem scanSingleWorkspace_frame_witness :
    (scanSingleWorkspace sampleGit 100 discFail cacheOther wsA).cache "/a/r" =
      some staleOtherRec :=
  scanSingleWorkspace_frame sampleGit 100 discFail cacheOther wsA "/a/r" staleOtherRec
    (by decide) (by decide) (fun paths hp => by simp [discFail] at hp)

/-- Workspace "w1" rooted at "/a", whose discovery will fail. -/
def wFail : Workspace := { name := "w1", path := "/a" }

/-- Workspace "w2" rooted at "/a/b", nested inside `wFail`'s root. -/
def wOk : Workspace := { name := "w2", path := "/a/b" }

/-- A discovery oracle failing for "w1" and finding "/a/b/r" otherwise. -/
def discMixed : Workspace → Except String (List String) :=
  fun ws => if ws.name = "w1" then Except.error "gone" else Except.ok ["/a/b/r"]

/-- A stale cache entry recorded for workspace "w1" at a path under the
overlapping root of "w2". -/
def staleW1Rec : RepoInfo :=
  { path := "/a/b/r", name := "r", branch := "old", ahead := 0, behind := 0,
    hasUpstream := false, lastCommitTime := 1, lastScanned := 0, workspaceName := "w1" }

/-- A cache holding only `staleW1Rec`. -/
def cacheW1 : Cache := fun q => if q = "/a/b/r" then some staleW1Rec else none

/-- C6 (counterexample): a prior cache entry of a workspace whose discovery
failed is not always left untouched: with overlapping roots, another
successfully scanned workspace rediscovers the same path and the merge
replaces the failed workspace's record. -/
theorem scanWorkspaces_failed_ws_replaced_cex :
    discMixed wFail = Except.error "gone" ∧
    cacheW1 "/a/b/r" = some staleW1Rec ∧ staleW1Rec.workspaceName = wFail.name ∧
    (scanWorkspaces sampleGit 1000000000000 discMixed [wFail, wOk] cacheW1).cache
        "/a/b/r" =
      some (freshScanRecord sampleGit 1000000000000 "/a/b/r" "w2") ∧
    freshScanRecord sampleGit 1000000000000 "/a/b/r" "w2" ≠ staleW1Rec :=
  ⟨rfl, by decide⟩

/-- C6 (amended): in `Scanner.ScanWorkspaces`, a workspace whose discovery
fails is excluded from the successfully-scanned set (given the configured
names are distinct), its prior entries are never deleted and are left
unchanged whenever no scanned record claims the same path, all per-workspace
discovery errors are joined into one "scan errors: ..." string, and the scan
still reports the records of every successfully discovered workspace. -/
theorem scanWorkspaces_failed_workspace_isolation (g : GitOracle) (now : Int)
    (disc : Workspace → Except String (List String)) (config : List Workspace)
    (cache : Cache) (wsf : Workspace) (e : String)
    (hmem : wsf ∈ config) (hd : disc wsf = Except.error e)
    (hnd : (config.map Workspace.name).Nodup) :
    wsf.name ∉ (scanWorkspaces g now disc config cache).successful ∧
    (scanWorkspaces g now disc config cache).errMsg =
      some ("scan errors: " ++
        String.intercalate "; " (scanWorkspaces g now disc config cache).errs) ∧
    ("workspace " ++ wsf.name ++ ": " ++ e) ∈
      (scanWorkspaces g now disc config cache).errs ∧
    (∀ (ws : Workspace) (paths : List String), ws ∈ config → disc ws = Except.ok paths →
      ∀ rr ∈ scanRepos g now cache false paths ws.name,
        rr ∈ (scanWorkspaces g now disc config cache).repos) ∧
    (∀ (p : String) (r : RepoInfo), cache p = some r → r.workspaceName = wsf.name →
      (∀ rr ∈ (scanWorkspaces g now disc config cache).repos, rr.path ≠ p) →
      (scanWorkspaces g now disc config cache).cache p = some r) := by
  have hsucc : (scanWorkspaces g now disc config cache).successful =
      (scanWorkspacesCore g now disc cache config).2.2 := rfl
  have herrs : (scanWorkspaces g now disc config cache).errs =
      (scanWorkspacesCore g now disc cache config).2.1 := rfl
  have hrepos : (scanWorkspaces g now disc config cache).repos =
      (scanWorkspacesCore g now disc cache config).1 := rfl
  have hns : wsf.name ∉ (scanWorkspacesCore g now disc cache config).2.2 := by
    intro hin
    obtain ⟨ws2, hm2, hname2, paths2, hok⟩ :=
      scanWorkspacesCore_successful_mem g now disc cache config wsf.name hin
    have heq : ws2 = wsf := workspaceName_unique config hnd ws2 wsf hm2 hmem hname2
    rw [heq, hd] at hok
    exact nomatch hok
  have hmsg := scanWorkspacesCore_error_mem g now disc cache config wsf e hmem hd
  refine ⟨?_, ?_, ?_, ?_, ?_⟩
  · rw [hsucc]
    exact hns
  · have herrm : (scanWorkspaces g now disc config cache).errMsg =
        (if (scanWorkspacesCore g now disc cache config).2.1.isEmpty then none
         else some ("scan errors: " ++
           String.intercalate "; " (scanWorkspacesCore g now disc cache config).2.1)) := rfl
    rw [herrm, herrs]
    rcases hl : (scanWorkspacesCore g now disc cache config).2.1 with _ | ⟨a, as⟩
    · rw [hl] at hmsg
      cases hmsg
    · simp
  · rw [herrs]
    exact hmsg
  · intro ws paths hwmem hwok rr hrr
    rw [hrepos]
    exact scanWorkspacesCore_repos_mem g now disc cache config ws paths hwmem hwok rr hrr
  · intro p r hcp hwn hfr
    rw [hrepos] at hfr
    have hcache : (scanWorkspaces g now disc config cache).cache =
        upsertAll
          (removeWorkspaceEntries cache
            (fun n => (scanWorkspacesCore g now disc cache config).2.2.contains n))
          (scanWorkspacesCore g now disc cache config).1 := rfl
    rw [hcache, upsertAll_frame _ _ _ hfr]
    have hcont : (scanWorkspacesCore g now disc cache config).2.2.contains
        r.workspaceName = false := by
      rw [hwn]
      simpa using hns
    simp [removeWorkspaceEntries, hcp, hcont]
    rw [hwn]
    exact hns

/-- Witness for `scanWorkspaces_failed_workspace_isolation` on a one-element
configuration whose only workspace fails discovery. -/
theorem scanWorkspaces_failed_workspace_isolation_witness :
    wFail.name ∉ (scanWorkspaces sampleGit 100 discFail [wFail] emptyCache).successful ∧
    (scanWorkspaces sampleGit 100 discFail [wFail] emptyCache).errMsg =
      some ("scan errors: " ++
        String.intercalate "; "
          (scanWorkspaces sampleGit 100 discFail [wFail] emptyCache).errs) ∧
    ("workspace " ++ wFail.name ++ ": " ++ "boom") ∈
      (scanWorkspaces sampleGit 100 discFail [wFail] emptyCache).errs := by
  have h := scanWorkspaces_failed_workspace_isolation sampleGit 100 discFail [wFail]
    emptyCache wFail "boom" (by decide) rfl (by decide)
  exact ⟨h.1, h.2.1, h.2.2.1⟩

/-! ### Quick-scan skip-list claim -/

/-- A first-level directory named "vendor" that is itself a git repo. -/
def quickVendorDir : DirEntry :=
  { name := "vendor", isDir := true, hasGitEntry := true, hasHeadEntry := false,
    hasRefsEntry := false, children := some [] }

/-- A first-level directory named "node_modules" containing a git repo one
level down. -/
def quickNodeDir : DirEntry :=
  { name := "node_modules", isDir := true, hasGitEntry := false, hasHeadEntry := false,
    hasRefsEntry := false,
    children := some [{ name := "r", isDir := true, hasGitEntry := true }] }

/-- C8 (counterexample): `Scanner.discoverReposQuick` does not apply the full
scan's skip-list at every level: a first-level directory named "vendor" (a
full-scan skip-list name) is reported as a repo root, and a first-level
directory named "node_modules" is descended into, its child reported. -/
theorem discoverReposQuick_skip_list_cex :
    fullScanSkip "vendor" = true ∧ fullScanSkip "node_modules" = true ∧
    discoverReposQuick "/w" [quickVendorDir] = ["/w/vendor"] ∧
    discoverReposQuick "/w" [quickNodeDir] = ["/w/node_modules/r"] := by decide

/-- C8 (amended): the quick scan's skip-list is smaller than the full scan's
(only node_modules, target, build and dist; not .next, .nuxt or vendor) and
is applied only to second-level directories: a grandchild with a skip-list
name is never reported as a repo root. -/
theorem discoverReposQuick_skip_behavior :
    (∀ (entryPath : String) (subs : List SubDirEntry) (sub : SubDirEntry),
      sub ∈ subs → quickScanSkip sub.name = true →
      joinPath entryPath sub.name ∉ quickScanSub entryPath subs) ∧
    quickScanSkip "node_modules" = true ∧ quickScanSkip "target" = true ∧
    quickScanSkip "build" = true ∧ quickScanSkip "dist" = true ∧
    quickScanSkip ".next" = false ∧ quickScanSkip ".nuxt" = false ∧
    quickScanSkip "vendor" = false := by
  refine ⟨?_, by decide, by decide, by decide, by decide, by decide, by decide, by decide⟩
  intro entryPath subs sub hmem hskip hcontra
  unfold quickScanSub at hcontra
  rw [List.mem_filterMap] at hcontra
  obtain ⟨sub2, hm2, hc2⟩ := hcontra
  by_cases h1 : sub2.isDir = true
  · by_cases h2 : quickScanSkip sub2.name = true
    · simp [h1, h2] at hc2
    · by_cases h3 : sub2.hasGitEntry = true
      · simp [h1, h2, h3] at hc2
        have hname : sub2.name = sub.name := joinPath_right_inj hc2
        rw [hname] at h2
        exact h2 hskip
      · simp [h1, h2, h3] at hc2
  · simp [h1] at hc2

/-- Witness for `discoverReposQuick_skip_behavior`: a second-level directory
named "dist" with a `.git` entry is not reported. -/
theorem discoverReposQuick_skip_behavior_witness :
    joinPath "/w/x" "dist" ∉
      quickScanSub "/w/x" [{ name := "dist", isDir := true, hasGitEntry := true }] :=
  discoverReposQuick_skip_behavior.1 "/w/x"
    [{ name := "dist", isDir := true, hasGitEntry := true }]
    { name := "dist", isDir := true, hasGitEntry := true } (by decide) (by decide)

/-! ### Persistence round-trip claim -/

/-- C9: `RepoCache.Save` followed by `LoadRepoCache` reproduces an equivalent
cache: parsing the saved file succeeds and yields the stamped version, the
unchanged last-opened pointers, and the repo map re-keyed in sorted order —
a permutation of the original entries under which every key looks up the
identical record. -/
theorem saveRepoCache_load_roundtrip (c : RepoCacheData) (now now2 : Int)
    (hnd : (c.repos.map Prod.fst).Nodup) :
    loadRepoCache (some (saveRepoCache c now)) now2 =
      some { version := now, repos := sortByKey c.repos,
             lastRepoPath := c.lastRepoPath, lastWorkspace := c.lastWorkspace } ∧
    (sortByKey c.repos).Perm c.repos ∧
    (∀ k, List.lookup k (sortByKey c.repos) = List.lookup k c.repos) := by
  have hperm : (sortByKey c.repos).Perm c.repos :=
    List.perm_insertionSort _ c.repos
  refine ⟨?_, hperm, ?_⟩
  · simp [loadRepoCache, saveRepoCache, encodeRepoCache, decodeRepoCache, jLookup,
      asNum, asStr, decodeRepoEntries_encode]
  · intro k
    have hnd2 : ((sortByKey c.repos).map Prod.fst).Nodup :=
      ((hperm.map Prod.fst).nodup_iff).mpr hnd
    exact lookup_eq_of_perm hperm hnd2 k

/-- A concrete two-entry cache for the round-trip witness. -/
def sampleCacheData : RepoCacheData :=
  { version := 1, repos := [("/w/b", repoT20), ("/w/a", repoT10)],
    lastRepoPath := "/w/a", lastWorkspace := "w" }

/-- Witness for `saveRepoCache_load_roundtrip` on a concrete cache. -/
theorem saveRepoCache_load_roundtrip_witness :
    loadRepoCache (some (saveRepoCache sampleCacheData 42)) 0 =
      some { version := 42, repos := sortByKey sampleCacheData.repos,
             lastRepoPath := "/w/a", lastWorkspace := "w" } ∧
    (sortByKey sampleCacheData.repos).Perm sampleCacheData.repos :=
  ⟨(saveRepoCache_load_roundtrip sampleCacheData 42 0 (by decide)).1,
   (saveRepoCache_load_roundtrip sampleCacheData 42 0 (by decide)).2.1⟩

/-- Sanity check of the `filepath.Base` model on representative paths. -/
theorem baseName_spot_checks :
    baseName "/w/code/r" = "r" ∧ baseName "a//b" = "b" ∧
    baseName "" = "." ∧ baseName "///" = "/" := by decide

end Kvist
